import Mathlib

set_option maxRecDepth 100000

/-!
Verification of `dateparser/conf.py`: the `Settings` configuration class
(`get_key`, `replace`, module-level `settings`) and the `apply_settings`
injection wrapper, shallowly embedded in Lean.
-/

/-- Python values as they occur in `conf.py`: the absent sentinel `None`,
booleans, integers, strings, and dicts with string keys (dicts appear as
the value of the `_mod_settings` attribute). -/
inductive PyValue where
  | none
  | bool (b : Bool)
  | int (n : Int)
  | str (s : String)
  | dict (d : List (String × PyValue))
deriving Repr

/-- Python dicts with string keys, modelled as association lists kept in
insertion order with pairwise-distinct keys (the distinctness is assumed
as a hypothesis where a theorem needs it, since a real dict cannot hold a
key twice). -/
abbrev Dict := List (String × PyValue)

mutual

/-- Decidable equality of Python values. -/
def PyValue.beq : PyValue → PyValue → Bool
  | .none, .none => true
  | .bool a, .bool b => a == b
  | .int a, .int b => a == b
  | .str a, .str b => a == b
  | .dict a, .dict b => PyValue.beqEntries a b
  | _, _ => false

/-- Decidable equality of dict entry lists. -/
def PyValue.beqEntries : List (String × PyValue) → List (String × PyValue) → Bool
  | [], [] => true
  | (k1, v1) :: r1, (k2, v2) :: r2 => k1 == k2 && PyValue.beq v1 v2 && PyValue.beqEntries r1 r2
  | _, _ => false

end

mutual

theorem PyValue.beq_iff : ∀ a b : PyValue, PyValue.beq a b = true ↔ a = b
  | .none, .none => by simp [PyValue.beq]
  | .bool a, .bool b => by simp [PyValue.beq]
  | .int a, .int b => by simp [PyValue.beq]
  | .str a, .str b => by simp [PyValue.beq]
  | .dict a, .dict b => by
      simp only [PyValue.beq, PyValue.beqEntries_iff a b, PyValue.dict.injEq]
  | .none, .bool _ | .none, .int _ | .none, .str _ | .none, .dict _
  | .bool _, .none | .bool _, .int _ | .bool _, .str _ | .bool _, .dict _
  | .int _, .none | .int _, .bool _ | .int _, .str _ | .int _, .dict _
  | .str _, .none | .str _, .bool _ | .str _, .int _ | .str _, .dict _
  | .dict _, .none | .dict _, .bool _ | .dict _, .int _ | .dict _, .str _ => by
      simp [PyValue.beq]

theorem PyValue.beqEntries_iff : ∀ a b : List (String × PyValue),
    PyValue.beqEntries a b = true ↔ a = b
  | [], [] => by simp [PyValue.beqEntries]
  | (k1, v1) :: r1, (k2, v2) :: r2 => by
      simp only [PyValue.beqEntries, Bool.and_eq_true, beq_iff_eq,
        PyValue.beq_iff v1 v2, PyValue.beqEntries_iff r1 r2, List.cons.injEq,
        Prod.mk.injEq, and_assoc]
  | [], (_, _) :: _ => by simp [PyValue.beqEntries]
  | (_, _) :: _, [] => by simp [PyValue.beqEntries]

end

instance : DecidableEq PyValue := fun a b =>
  decidable_of_iff (PyValue.beq a b = true) (PyValue.beq_iff a b)

mutual

/-- Python `repr()` for the embedded values (no escape handling is needed:
none of the strings manipulated by `conf.py` that reach `repr` contain
quotes or backslashes). -/
def pyRepr : PyValue → String
  | .none => "None"
  | .bool b => if b then "True" else "False"
  | .int n => toString n
  | .str s => "\x27" ++ s ++ "\x27"
  | .dict d => "\x7b" ++ pyReprEntries d ++ "\x7d"

/-- Repr of the comma-separated entries of a dict. -/
def pyReprEntries : List (String × PyValue) → String
  | [] => ""
  | [(k, v)] => "\x27" ++ k ++ "\x27: " ++ pyRepr v
  | (k, v) :: rest => "\x27" ++ k ++ "\x27: " ++ pyRepr v ++ ", " ++ pyReprEntries rest

end

/-- Python `str()`: identical to `repr()` except on strings, which print
without quotes. -/
def pyStr : PyValue → String
  | .str s => s
  | v => pyRepr v

/-- Python truthiness of the embedded values (`bool(v)`). -/
def pyTruthy : PyValue → Bool
  | .none => false
  | .bool b => b
  | .int n => n != 0
  | .str s => !s.isEmpty
  | .dict d => !d.isEmpty

namespace Dict

/-- Dict lookup `d[k]` (first binding of the key). -/
def get? (d : Dict) (k : String) : Option PyValue :=
  (d.find? (fun kv => kv.1 == k)).map (·.2)

/-- Membership test `k in d`. -/
def hasKey (d : Dict) (k : String) : Bool :=
  (d.find? (fun kv => kv.1 == k)).isSome

/-- Python `d.setdefault(k, v)`: leave the dict unchanged when the key is
present, otherwise append the new binding at the end (insertion order). -/
def setdefault (d : Dict) (k : String) (v : PyValue) : Dict :=
  if d.hasKey k then d else d ++ [(k, v)]

/-- Python `d[k] = v`: replace the binding in place when the key is present,
otherwise append it at the end. -/
def setItem (d : Dict) (k : String) (v : PyValue) : Dict :=
  if d.hasKey k then d.map (fun kv => if kv.1 == k then (k, v) else kv)
  else d ++ [(k, v)]

/-- Python `d.keys()` in insertion order. -/
def keys (d : Dict) : List String := d.map (·.1)

end Dict

/-! MD5 (RFC 1321), used by `Settings.get_key` through `hashlib.md5`.
Implemented over lists of byte values (`Nat` below 256), with 32-bit words
as `Nat` reduced mod `2 ^ 32`. -/

/-- Modulus of 32-bit words. -/
def M32 : Nat := 4294967296

/-- Left-rotation of a 32-bit word. -/
def rotl32 (x n : Nat) : Nat :=
  ((x <<< n) ||| (x >>> (32 - n))) % M32

/-- Bitwise complement of a 32-bit word. -/
def not32 (x : Nat) : Nat := x ^^^ 4294967295

/-- The 64 MD5 sine-derived constants. -/
def md5K : List Nat :=
  [0xd76aa478, 0xe8c7b756, 0x242070db, 0xc1bdceee,
   0xf57c0faf, 0x4787c62a, 0xa8304613, 0xfd469501,
   0x698098d8, 0x8b44f7af, 0xffff5bb1, 0x895cd7be,
   0x6b901122, 0xfd987193, 0xa679438e, 0x49b40821,
   0xf61e2562, 0xc040b340, 0x265e5a51, 0xe9b6c7aa,
   0xd62f105d, 0x02441453, 0xd8a1e681, 0xe7d3fbc8,
   0x21e1cde6, 0xc33707d6, 0xf4d50d87, 0x455a14ed,
   0xa9e3e905, 0xfcefa3f8, 0x676f02d9, 0x8d2a4c8a,
   0xfffa3942, 0x8771f681, 0x6d9d6122, 0xfde5380c,
   0xa4beea44, 0x4bdecfa9, 0xf6bb4b60, 0xbebfbc70,
   0x289b7ec6, 0xeaa127fa, 0xd4ef3085, 0x04881d05,
   0xd9d4d039, 0xe6db99e5, 0x1fa27cf8, 0xc4ac5665,
   0xf4292244, 0x432aff97, 0xab9423a7, 0xfc93a039,
   0x655b59c3, 0x8f0ccc92, 0xffeff47d, 0x85845dd1,
   0x6fa87e4f, 0xfe2ce6e0, 0xa3014314, 0x4e0811a1,
   0xf7537e82, 0xbd3af235, 0x2ad7d2bb, 0xeb86d391]

/-- The 64 MD5 per-round shift amounts. -/
def md5S : List Nat :=
  [7, 12, 17, 22, 7, 12, 17, 22, 7, 12, 17, 22, 7, 12, 17, 22,
   5, 9, 14, 20, 5, 9, 14, 20, 5, 9, 14, 20, 5, 9, 14, 20,
   4, 11, 16, 23, 4, 11, 16, 23, 4, 11, 16, 23, 4, 11, 16, 23,
   6, 10, 15, 21, 6, 10, 15, 21, 6, 10, 15, 21, 6, 10, 15, 21]

/-- The four 32-bit words of the MD5 running state. -/
structure MD5State where
  a : Nat
  b : Nat
  c : Nat
  d : Nat

/-- One of the 64 MD5 rounds, applied to the state for round index `i` with
message words `m`. -/
def md5Round (m : List Nat) (st : MD5State) (i : Nat) : MD5State :=
  let fg : Nat × Nat :=
    if i < 16 then ((st.b &&& st.c) ||| (not32 st.b &&& st.d), i)
    else if i < 32 then ((st.d &&& st.b) ||| (not32 st.d &&& st.c), (5 * i + 1) % 16)
    else if i < 48 then (st.b ^^^ st.c ^^^ st.d, (3 * i + 5) % 16)
    else (st.c ^^^ (st.b ||| not32 st.d), (7 * i) % 16)
  let f := (fg.1 + st.a + md5K.getD i 0 + m.getD fg.2 0) % M32
  ⟨st.d, (st.b + rotl32 f (md5S.getD i 0)) % M32, st.b, st.c⟩

/-- Group a list of bytes into 32-bit little-endian words. -/
def bytesToWords : List Nat → List Nat
  | b0 :: b1 :: b2 :: b3 :: rest =>
      (b0 + 256 * b1 + 65536 * b2 + 16777216 * b3) :: bytesToWords rest
  | _ => []

/-- Process one 64-byte block: run the 64 rounds and add the result back
into the incoming state, word-wise mod `2 ^ 32`. -/
def md5Block (st : MD5State) (block : List Nat) : MD5State :=
  let m := bytesToWords block
  let r := (List.range 64).foldl (md5Round m) st
  ⟨(st.a + r.a) % M32, (st.b + r.b) % M32, (st.c + r.c) % M32, (st.d + r.d) % M32⟩

/-- Split a byte list into successive chunks of 64 bytes, with a structural
fuel argument so that the definition reduces inside the kernel; fuel at
least the list length never runs out. -/
def chunks64Fuel : Nat → List Nat → List (List Nat)
  | _, [] => []
  | 0, _ => []
  | fuel + 1, l => l.take 64 :: chunks64Fuel fuel (l.drop 64)

/-- Split a byte list into successive chunks of 64 bytes. -/
def chunks64 (l : List Nat) : List (List Nat) :=
  chunks64Fuel l.length l

/-- MD5 padding: a `0x80` byte, zeros up to 56 mod 64, then the original
bit length as a 64-bit little-endian quantity. -/
def md5Pad (msg : List Nat) : List Nat :=
  let bitLen := (msg.length * 8) % (2 ^ 64)
  let lenBytes := (List.range 8).map (fun i => bitLen / (2 ^ (8 * i)) % 256)
  msg ++ [0x80] ++ List.replicate ((119 - msg.length % 64) % 64) 0 ++ lenBytes

/-- MD5 of a byte list: the final four state words. -/
def md5Words (msg : List Nat) : MD5State :=
  (chunks64 (md5Pad msg)).foldl md5Block
    ⟨0x67452301, 0xefcdab89, 0x98badcfe, 0x10325476⟩

/-- Lower-case hexadecimal digits. -/
def hexDigit (n : Nat) : Char :=
  (String.toList "0123456789abcdef").getD n (Char.ofNat 48)

/-- The two hex characters of one byte. -/
def byteHexChars (b : Nat) : List Char :=
  [hexDigit (b / 16 % 16), hexDigit (b % 16)]

/-- The four little-endian bytes of a 32-bit word. -/
def wordLEBytes (w : Nat) : List Nat :=
  [w % 256, w / 256 % 256, w / 65536 % 256, w / 16777216 % 256]

/-- Hex digest of an MD5 state (the 16 digest bytes, two hex characters
each). -/
def md5StateHex (st : MD5State) : String :=
  String.mk (((wordLEBytes st.a ++ wordLEBytes st.b ++ wordLEBytes st.c ++
    wordLEBytes st.d).map byteHexChars).flatten)

/-- UTF-8 encoding of a string as a list of byte values, the same bytes as
`String.toUTF8` (whose `ByteArray` carrier is exactly
`s.data.flatMap String.utf8EncodeChar`). -/
def strBytes (s : String) : List Nat :=
  (s.data.flatMap String.utf8EncodeChar).map (fun b => b.toNat)

/-- Python `hashlib.md5(s.encode('utf-8')).hexdigest()`. -/
def md5hex (s : String) : String :=
  md5StateHex (md5Words (strBytes s))

example : md5hex "" = "d41d8cd98f00b204e9800998ecf8427e" := by decide

example : md5hex "abc" = "900150983cd24fb0d6963f7d28e17f72" := by decide

/-! The `Settings` class of `dateparser/conf.py`. The external option table
(`dateparser_data.settings.settings`, outside this repository) is an
explicit parameter `P` wherever the code reads `_get_settings_from_pyfile`;
the theorems hold for an arbitrary table. -/

/-- A `Settings` instance: its instance `__dict__`, built by `setattr`
calls. -/
structure Settings where
  attrs : Dict
deriving DecidableEq, Repr

/-- Class-level attributes of `Settings` (`_default = True`,
`_mod_settings = dict()`), visible through attribute lookup whenever no
instance attribute shadows them. -/
def Settings.classAttrs : Dict :=
  [("_default", PyValue.bool true), ("_mod_settings", PyValue.dict [])]

/-- Python `getattr(self, x)`: the instance dict first, then the class
attributes; `Option.none` models the `AttributeError` case. -/
def Settings.getattr (self : Settings) (x : String) : Option PyValue :=
  self.attrs.get? x <|> Settings.classAttrs.get? x

/-- Method `_updateall`: `setattr(self, key, value)` for each pair of the
iterable, in order. -/
def Settings.updateall (self : Settings) (iterable : Dict) : Settings :=
  ⟨iterable.foldl (fun d kv => d.setItem kv.1 kv.2) self.attrs⟩

/-- Constructor `Settings(settings=...)`: when the argument is truthy its
items are applied to a fresh instance, otherwise the option table `P`
is. -/
def Settings.init (P : Dict) (s? : Option Dict) : Settings :=
  match s? with
  | some s => if s.isEmpty then Settings.updateall ⟨[]⟩ P else Settings.updateall ⟨[]⟩ s
  | Option.none => Settings.updateall ⟨[]⟩ P

/-- The module-level `settings = Settings()`: the process-wide base
snapshot, built from the option table. -/
def settings (P : Dict) : Settings := Settings.init P Option.none

/-- Cache-key fragments `'%s-%s' % (key, str(settings[key]))`, one per dict
entry, in dict iteration order. -/
def keyFragments (d : Dict) : List String :=
  d.map (fun kv => kv.1 ++ "-" ++ pyStr kv.2)

/-- Classmethod `Settings.get_key(settings=None)`: `'default'` for a falsy
argument, otherwise the MD5 hex digest of the sorted fragments joined with
no separator. -/
def Settings.get_key (s? : Option Dict) : String :=
  match s? with
  | Option.none => "default"
  | some d =>
    if d.isEmpty then "default"
    else md5hex (String.join ((keyFragments d).mergeSort (fun a b => a ≤ b)))

/-- Python exceptions this module raises or can hit: `TypeError` (with its
message) and `AttributeError` (with the missing attribute name). -/
inductive PyError where
  | typeError (msg : String)
  | attributeError (nm : String)
deriving DecidableEq, Repr

/-- Method `Settings.replace(mod_settings=None, **kwds)`: reject a `None`
value among the keyword arguments, fill every option-table key absent from
`kwds` with the current attribute value, force `_default = False`, install
`mod_settings` (when truthy) as `_mod_settings`, and build a fresh
instance from the resulting dict. -/
def Settings.replace (P : Dict) (self : Settings) (mod_settings : Option Dict)
    (kwds : Dict) : Except PyError Settings :=
  match kwds.find? (fun kv => kv.2 == PyValue.none) with
  | some kv =>
      Except.error (PyError.typeError
        ("Invalid \x7b\"" ++ kv.1 ++ "\": " ++ pyStr kv.2 ++ "\x7d"))
  | Option.none => do
    let kwds2 ← P.keys.foldlM (fun (d : Dict) x =>
      match self.getattr x with
      | some v => Except.ok (d.setdefault x v)
      | Option.none => Except.error (PyError.attributeError x)) kwds
    let kwds3 := kwds2.setItem "_default" (PyValue.bool false)
    let kwds4 := match mod_settings with
      | some m => if m.isEmpty then kwds3 else kwds3.setItem "_mod_settings" (PyValue.dict m)
      | Option.none => kwds3
    Except.ok (Settings.init P (some kwds4))

/-- Shape of the `settings` keyword argument at a call of a wrapped
function: absent, a plain Python value (`None`, a dict of overrides, an
int, ...), or an existing `Settings` instance. -/
inductive SettingsArg where
  | absent
  | py (v : PyValue)
  | inst (s : Settings)
deriving DecidableEq, Repr

/-- Truthiness of the argument as `mod_settings or settings` sees it: an
absent argument is read back as `None` by `kwargs.get`, and a `Settings`
instance is an ordinary object, always truthy. -/
def SettingsArg.truthy : SettingsArg → Bool
  | .absent => false
  | .py v => pyTruthy v
  | .inst _ => true

/-- Settings resolution performed on each call by the `wrapper` closure of
`apply_settings`: `kwargs['settings'] = mod_settings or settings`; a dict
goes through `settings.replace(mod_settings=mod_settings, **kwargs['settings'])`;
anything that is then not a `Settings` instance raises `TypeError`.
`settings.replace(**d)` passes the dict entries as keyword arguments, so a
key clashing with a parameter of `replace` (`self`, `mod_settings`) raises
the "multiple values" `TypeError` before the body runs. -/
def apply_settings_resolve (P : Dict) (arg : SettingsArg) : Except PyError Settings :=
  let resolved : SettingsArg := if arg.truthy then arg else .inst (settings P)
  match resolved with
  | .py (.dict d) =>
      if Dict.hasKey d "self" || Dict.hasKey d "mod_settings" then
        Except.error (PyError.typeError "replace() got multiple values for argument")
      else
        Settings.replace P (settings P) (some d) d
  | .inst s => Except.ok s
  | _ => Except.error (PyError.typeError
      "settings can only be either dict or instance of Settings class")

/-- What the wrapped callable receives: the positional arguments, the
keyword arguments other than `settings`, and the resolved snapshot bound
to `settings`. -/
structure WrappedCall where
  args : List PyValue
  otherKwargs : Dict
  settingsVal : Settings
deriving DecidableEq, Repr

/-- The full `wrapper` call of `apply_settings f`: resolve the `settings`
keyword argument and invoke `f` with it installed in `kwargs`, every other
argument forwarded unchanged. -/
def apply_settings (P : Dict) (args : List PyValue) (otherKwargs : Dict)
    (settingsArg : SettingsArg) : Except PyError WrappedCall :=
  (apply_settings_resolve P settingsArg).map (fun s => ⟨args, otherKwargs, s⟩)

/-- A small concrete option table standing in for the external
`dateparser_data` source in the witness theorems. -/
def Pex : Dict :=
  [("PREFER_DATES_FROM", PyValue.str "current_period"),
   ("TIMEZONE", PyValue.str "UTC"),
   ("RETURN_TIME_AS_PERIOD", PyValue.bool false)]

/-! Lemmas about the dict operations. -/

namespace Dict

theorem get?_nil (k : String) : get? ([] : Dict) k = Option.none := rfl

theorem get?_cons (kv : String × PyValue) (rest : Dict) (k : String) :
    get? (kv :: rest) k = if kv.1 = k then some kv.2 else get? rest k := by
  unfold get?
  by_cases h : kv.1 = k
  · rw [List.find?_cons_of_pos _ (by simp [h]), if_pos h]
    rfl
  · rw [List.find?_cons_of_neg _ (by simp [h]), if_neg h]

theorem hasKey_eq_isSome (d : Dict) (k : String) :
    hasKey d k = (get? d k).isSome := by
  unfold hasKey get?
  cases d.find? (fun kv => kv.1 == k) <;> rfl

theorem get?_isSome_iff (d : Dict) (k : String) :
    (get? d k).isSome = true ↔ k ∈ keys d := by
  induction d with
  | nil => simp [get?_nil, keys]
  | cons kv rest ih =>
    rw [get?_cons]
    by_cases h : kv.1 = k
    · simp [h, keys]
    · simp only [if_neg h, keys, List.map_cons, List.mem_cons, ih]
      constructor
      · exact fun hx => Or.inr hx
      · rintro (hx | hx)
        · exact absurd hx.symm h
        · exact hx

theorem hasKey_iff (d : Dict) (k : String) :
    hasKey d k = true ↔ k ∈ keys d := by
  rw [hasKey_eq_isSome]; exact get?_isSome_iff d k

theorem get?_eq_none_of_not_mem {d : Dict} {k : String} (h : k ∉ keys d) :
    get? d k = Option.none := by
  have := (get?_isSome_iff d k).not.mpr h
  simpa [Option.not_isSome_iff_eq_none] using this

theorem get?_mem {d : Dict} {k : String} {v : PyValue} (h : get? d k = some v) :
    (k, v) ∈ d := by
  unfold get? at h
  obtain ⟨kv, hfind, hval⟩ := Option.map_eq_some.mp h
  have hmem := List.mem_of_find?_eq_some hfind
  have hkey : kv.1 = k := by simpa using List.find?_some hfind
  have : kv = (k, v) := by
    cases kv; simp_all
  rwa [this] at hmem

theorem get?_of_mem_nodup {d : Dict} {kv : String × PyValue}
    (hnd : (keys d).Nodup) (h : kv ∈ d) : get? d kv.1 = some kv.2 := by
  induction d with
  | nil => cases h
  | cons hd rest ih =>
    rw [get?_cons]
    rcases List.mem_cons.mp h with h1 | h1
    · rw [h1, if_pos rfl]
    · have hndc : (hd.1 :: keys rest).Nodup := hnd
      have hnd2 := List.nodup_cons.mp hndc
      have hhd : hd.1 ∉ keys rest := hnd2.1
      have hne : hd.1 ≠ kv.1 := by
        intro he
        exact hhd (he ▸ List.mem_map_of_mem (·.1) h1)
      rw [if_neg hne]
      exact ih hnd2.2 h1

end Dict

namespace Dict

theorem hasKey_nil (k : String) : hasKey ([] : Dict) k = false := rfl

theorem hasKey_cons (kv : String × PyValue) (rest : Dict) (k : String) :
    hasKey (kv :: rest) k = ((kv.1 == k) || hasKey rest k) := by
  unfold hasKey
  by_cases h : kv.1 = k
  · rw [List.find?_cons_of_pos _ (by simp [h])]
    simp [h]
  · rw [List.find?_cons_of_neg _ (by simp [h])]
    simp [h]

theorem keys_append (d1 d2 : Dict) : keys (d1 ++ d2) = keys d1 ++ keys d2 := by
  simp [keys]

theorem hasKey_append (d1 d2 : Dict) (k : String) :
    hasKey (d1 ++ d2) k = (hasKey d1 k || hasKey d2 k) := by
  rw [Bool.eq_iff_iff]
  simp [hasKey_iff, keys_append, List.mem_append]

theorem get?_append_singleton (d : Dict) (k : String) (v : PyValue) (x : String)
    (h : hasKey d k = false) :
    get? (d ++ [(k, v)]) x = if x = k then some v else get? d x := by
  induction d with
  | nil =>
    simp only [List.nil_append, get?_cons, get?_nil]
    by_cases hx : x = k
    · rw [if_pos hx.symm, if_pos hx]
    · rw [if_neg (fun he => hx he.symm), if_neg hx]
  | cons kv rest ih =>
    rw [hasKey_cons, Bool.or_eq_false_iff] at h
    have hk1 : kv.1 ≠ k := by simpa using h.1
    rw [List.cons_append, get?_cons, get?_cons, ih h.2]
    by_cases hkx : kv.1 = x
    · have hxk : x ≠ k := fun he => hk1 (hkx.trans he)
      rw [if_pos hkx, if_neg hxk, if_pos hkx]
    · rw [if_neg hkx, if_neg hkx]

theorem get?_map_setItem (d : Dict) (k : String) (v : PyValue) (x : String) :
    get? (d.map (fun kv => if kv.1 == k then (k, v) else kv)) x =
      if x = k then (if hasKey d k then some v else Option.none) else get? d x := by
  induction d with
  | nil =>
    simp only [List.map_nil, get?_nil, hasKey_nil, Bool.false_eq_true, if_false]
    by_cases hx : x = k <;> simp [hx]
  | cons kv rest ih =>
    rw [List.map_cons, get?_cons, get?_cons, hasKey_cons, ih]
    by_cases hk : kv.1 = k
    · rw [if_pos (show (kv.1 == k) = true from by simp [hk])]
      by_cases hx : x = k
      · subst hx
        simp [hk]
      · have hkx : k ≠ x := fun he => hx he.symm
        have hk1x : kv.1 ≠ x := by rw [hk]; exact hkx
        simp [hx, hkx, hk1x]
    · rw [if_neg (show ¬ (kv.1 == k) = true from by simp [hk])]
      by_cases hkx : kv.1 = x
      · have hxk : x ≠ k := fun he => hk (hkx.trans he)
        rw [if_pos hkx, if_neg hxk, if_pos hkx]
      · rw [if_neg hkx, if_neg hkx]
        by_cases hx : x = k
        · simp [hx, hk]
        · simp [hx]

theorem get?_setItem (d : Dict) (k : String) (v : PyValue) (x : String) :
    get? (setItem d k v) x = if x = k then some v else get? d x := by
  unfold setItem
  by_cases h : hasKey d k = true
  · rw [if_pos h, get?_map_setItem]
    by_cases hx : x = k <;> simp [hx, h]
  · have hf : hasKey d k = false := by simpa using h
    rw [if_neg h, get?_append_singleton d k v x hf]

theorem get?_setdefault (d : Dict) (k : String) (v : PyValue) (x : String) :
    get? (setdefault d k v) x =
      if x = k ∧ hasKey d k = false then some v else get? d x := by
  unfold setdefault
  by_cases h : hasKey d k = true
  · rw [if_pos h, if_neg (by simp [h])]
  · have hf : hasKey d k = false := by simpa using h
    rw [if_neg h, get?_append_singleton d k v x hf]
    by_cases hx : x = k
    · rw [if_pos hx, if_pos ⟨hx, hf⟩]
    · rw [if_neg hx, if_neg (by simp [hx])]

theorem hasKey_setdefault (d : Dict) (k : String) (v : PyValue) (x : String) :
    hasKey (setdefault d k v) x = (hasKey d x || (x == k)) := by
  unfold setdefault
  by_cases h : hasKey d k = true
  · rw [if_pos h]
    by_cases hx : x = k
    · subst hx; simp [h]
    · simp [hx]
  · rw [if_neg h, hasKey_append, hasKey_cons, hasKey_nil]
    by_cases hx : x = k
    · subst hx; simp
    · have hxk : ¬ k = x := fun he => hx he.symm
      rw [Bool.eq_iff_iff]
      simp [hx, hxk]

theorem keys_setdefault (d : Dict) (k : String) (v : PyValue) :
    keys (setdefault d k v) = if hasKey d k then keys d else keys d ++ [k] := by
  unfold setdefault
  by_cases h : hasKey d k = true
  · rw [if_pos h, if_pos h]
  · rw [if_neg h, if_neg h, keys_append]
    rfl

theorem keys_setItem (d : Dict) (k : String) (v : PyValue) :
    keys (setItem d k v) = if hasKey d k then keys d else keys d ++ [k] := by
  unfold setItem
  by_cases h : hasKey d k = true
  · rw [if_pos h, if_pos h]
    simp only [keys, List.map_map]
    apply List.map_congr_left
    intro kv _
    by_cases hk : kv.1 = k <;> simp [hk]
  · rw [if_neg h, if_neg h, keys_append]
    rfl

theorem setItem_ne_nil (d : Dict) (k : String) (v : PyValue) :
    setItem d k v ≠ [] := by
  unfold setItem
  cases d with
  | nil => simp [hasKey_nil]
  | cons kv rest =>
    by_cases h : hasKey (kv :: rest) k = true <;> simp [h]

theorem mem_setItem {d : Dict} {k : String} {v : PyValue} {kv : String × PyValue}
    (h : kv ∈ setItem d k v) : kv ∈ d ∨ kv = (k, v) := by
  unfold setItem at h
  by_cases hk : hasKey d k = true
  · rw [if_pos hk] at h
    obtain ⟨a, ha, hfa⟩ := List.mem_map.mp h
    by_cases hak : a.1 = k
    · right; rw [← hfa]; simp [hak]
    · left; rw [← hfa]; simpa [hak] using ha
  · rw [if_neg hk] at h
    rcases List.mem_append.mp h with h1 | h1
    · exact Or.inl h1
    · exact Or.inr (by simpa using h1)

theorem mem_setdefault {d : Dict} {k : String} {v : PyValue} {kv : String × PyValue}
    (h : kv ∈ setdefault d k v) : kv ∈ d ∨ kv = (k, v) := by
  unfold setdefault at h
  by_cases hk : hasKey d k = true
  · rw [if_pos hk] at h; exact Or.inl h
  · rw [if_neg hk] at h
    rcases List.mem_append.mp h with h1 | h1
    · exact Or.inl h1
    · exact Or.inr (by simpa using h1)

end Dict

/-! Lemmas about the folds used by `_updateall` and `replace`. -/

theorem get?_foldl_setdefault (xs : List String) (f : String → PyValue) (d : Dict)
    (y : String) :
    Dict.get? (xs.foldl (fun acc x => Dict.setdefault acc x (f x)) d) y =
      if Dict.hasKey d y then Dict.get? d y
      else if y ∈ xs then some (f y) else Option.none := by
  induction xs generalizing d with
  | nil =>
    by_cases h : Dict.hasKey d y = true
    · rw [List.foldl_nil, if_pos h]
    · rw [List.foldl_nil, if_neg h]
      simp only [List.not_mem_nil, if_false]
      exact Dict.get?_eq_none_of_not_mem ((Dict.hasKey_iff d y).not.mp h)
  | cons x rest ih =>
    rw [List.foldl_cons, ih]
    by_cases hdy : Dict.hasKey d y = true
    · have h1 : Dict.hasKey (Dict.setdefault d x (f x)) y = true := by
        rw [Dict.hasKey_setdefault, hdy, Bool.true_or]
      rw [if_pos h1, if_pos hdy, Dict.get?_setdefault,
        if_neg (by rintro ⟨he, hf⟩; rw [he] at hdy; rw [hdy] at hf; cases hf)]
    · have hdyf : Dict.hasKey d y = false := by simpa using hdy
      rw [if_neg hdy]
      by_cases hyx : y = x
      · subst hyx
        have h1 : Dict.hasKey (Dict.setdefault d y (f y)) y = true := by
          rw [Dict.hasKey_setdefault]; simp
        rw [if_pos h1, Dict.get?_setdefault, if_pos ⟨rfl, hdyf⟩]
        simp
      · have h1 : Dict.hasKey (Dict.setdefault d x (f x)) y = false := by
          rw [Dict.hasKey_setdefault, hdyf]
          simp [hyx]
        rw [if_neg (by simp [h1])]
        simp [List.mem_cons, hyx]

theorem keys_nodup_foldl_setdefault (xs : List String) (f : String → PyValue)
    (d : Dict) (hnd : (Dict.keys d).Nodup) :
    (Dict.keys (xs.foldl (fun acc x => Dict.setdefault acc x (f x)) d)).Nodup := by
  induction xs generalizing d with
  | nil => exact hnd
  | cons x rest ih =>
    rw [List.foldl_cons]
    apply ih
    rw [Dict.keys_setdefault]
    by_cases h : Dict.hasKey d x = true
    · rw [if_pos h]; exact hnd
    · rw [if_neg h]
      refine List.Nodup.append hnd (List.nodup_singleton x) ?_
      intro a ha hb
      have : a = x := by simpa using hb
      subst this
      exact absurd ((Dict.hasKey_iff d a).mpr ha) h

theorem mem_foldl_setdefault (xs : List String) (f : String → PyValue) (d : Dict)
    {kv : String × PyValue}
    (h : kv ∈ xs.foldl (fun acc x => Dict.setdefault acc x (f x)) d) :
    kv ∈ d ∨ (kv.1 ∈ xs ∧ kv.2 = f kv.1) := by
  induction xs generalizing d with
  | nil => exact Or.inl h
  | cons x rest ih =>
    rw [List.foldl_cons] at h
    rcases ih _ h with h1 | h1
    · rcases Dict.mem_setdefault h1 with h2 | h2
      · exact Or.inl h2
      · right
        rw [h2]
        exact ⟨List.mem_cons_self x rest, rfl⟩
    · exact Or.inr ⟨List.mem_cons_of_mem x h1.1, h1.2⟩

theorem mem_foldl_setItem (kwds : Dict) (init : Dict) {kv : String × PyValue}
    (h : kv ∈ kwds.foldl (fun d kv => Dict.setItem d kv.1 kv.2) init) :
    kv ∈ init ∨ kv ∈ kwds := by
  induction kwds generalizing init with
  | nil => exact Or.inl h
  | cons hd rest ih =>
    rw [List.foldl_cons] at h
    rcases ih _ h with h1 | h1
    · rcases Dict.mem_setItem h1 with h2 | h2
      · exact Or.inl h2
      · right
        rw [h2, show ((hd.1, hd.2) : String × PyValue) = hd from rfl]
        exact List.mem_cons_self hd rest
    · exact Or.inr (List.mem_cons_of_mem hd h1)

theorem foldl_setItem_fresh (kwds : Dict) (init : Dict)
    (hnd : (Dict.keys kwds).Nodup)
    (hfresh : ∀ k ∈ Dict.keys kwds, Dict.hasKey init k = false) :
    kwds.foldl (fun d kv => Dict.setItem d kv.1 kv.2) init = init ++ kwds := by
  induction kwds generalizing init with
  | nil => simp
  | cons kv rest ih =>
    have hndc : (kv.1 :: Dict.keys rest).Nodup := hnd
    have hnd2 := List.nodup_cons.mp hndc
    rw [List.foldl_cons]
    have h1 : Dict.setItem init kv.1 kv.2 = init ++ [kv] := by
      unfold Dict.setItem
      rw [if_neg (by simp [hfresh kv.1 (List.mem_cons_self _ _)])]
    rw [h1, ih (init ++ [kv]) hnd2.2]
    · rw [List.append_assoc, List.singleton_append]
    · intro k hk
      rw [Dict.hasKey_append, Dict.hasKey_cons, Dict.hasKey_nil]
      have hk1 : kv.1 ≠ k := fun he => hnd2.1 (he ▸ hk)
      simp [hfresh k (List.mem_cons_of_mem _ hk), hk1]

/-! Lemmas about `Settings` construction and attribute lookup. -/

theorem except_bind_ok {α β γ : Type} (a : α) (f : α → Except γ β) :
    (Except.ok a >>= f : Except γ β) = f a := rfl

theorem except_bind_error {α β γ : Type} (e : γ) (f : α → Except γ β) :
    (Except.error e >>= f : Except γ β) = Except.error e := rfl

theorem Settings.init_some (P kwds : Dict) (hne : kwds ≠ [])
    (hnd : (Dict.keys kwds).Nodup) :
    Settings.init P (some kwds) = ⟨kwds⟩ := by
  have h1 : Settings.init P (some kwds) =
      if kwds.isEmpty = true then Settings.updateall ⟨[]⟩ P
      else Settings.updateall ⟨[]⟩ kwds := rfl
  rw [h1, if_neg (by simpa [List.isEmpty_iff] using hne)]
  unfold Settings.updateall
  congr 1
  simpa using foldl_setItem_fresh kwds [] hnd (fun k _ => rfl)

theorem settings_eq (P : Dict) (hnd : (Dict.keys P).Nodup) : settings P = ⟨P⟩ := by
  unfold settings Settings.init Settings.updateall
  simpa using foldl_setItem_fresh P [] hnd (fun k _ => rfl)

theorem Settings.getattr_of_attrs_some {s : Settings} {x : String} {v : PyValue}
    (h : Dict.get? s.attrs x = some v) : s.getattr x = some v := by
  unfold Settings.getattr
  rw [h]
  rfl

theorem Settings.getattr_of_attrs_none {s : Settings} {x : String}
    (h : Dict.get? s.attrs x = Option.none) :
    s.getattr x = Dict.get? Settings.classAttrs x := by
  unfold Settings.getattr
  rw [h]
  cases Dict.get? Settings.classAttrs x <;> rfl

theorem settings_getattr_mem {P : Dict} (hnd : (Dict.keys P).Nodup) {x : String}
    (hx : x ∈ Dict.keys P) :
    (settings P).getattr x = Dict.get? P x ∧ ((settings P).getattr x).isSome = true := by
  rw [settings_eq P hnd]
  obtain ⟨v, hv⟩ := Option.isSome_iff_exists.mp ((Dict.get?_isSome_iff P x).mpr hx)
  have h1 : (Settings.mk P).getattr x = some v := Settings.getattr_of_attrs_some hv
  exact ⟨h1.trans hv.symm, by rw [h1]; rfl⟩

theorem settings_getattr_not_mem {P : Dict} (hnd : (Dict.keys P).Nodup) {x : String}
    (hx : x ∉ Dict.keys P) :
    (settings P).getattr x = Dict.get? Settings.classAttrs x := by
  rw [settings_eq P hnd]
  exact Settings.getattr_of_attrs_none (Dict.get?_eq_none_of_not_mem hx)

theorem foldlM_setdefault_ok (xs : List String) (g : String → Option PyValue)
    (err : String → PyError) (d : Dict) (h : ∀ x ∈ xs, (g x).isSome = true) :
    (xs.foldlM (fun (acc : Dict) x =>
        match g x with
        | some v => Except.ok (Dict.setdefault acc x v)
        | Option.none => Except.error (err x)) d : Except PyError Dict) =
      Except.ok (xs.foldl
        (fun acc x => Dict.setdefault acc x ((g x).getD PyValue.none)) d) := by
  induction xs generalizing d with
  | nil => rfl
  | cons x rest ih =>
    obtain ⟨v, hv⟩ := Option.isSome_iff_exists.mp (h x (List.mem_cons_self x rest))
    rw [List.foldlM_cons, List.foldl_cons, hv, except_bind_ok]
    exact ih (Dict.setdefault d x v) (fun y hy => h y (List.mem_cons_of_mem x hy))

theorem foldlM_setdefault_error (xs : List String) (g : String → Option PyValue)
    (err : String → PyError) (d : Dict) {e : PyError}
    (h : (xs.foldlM (fun (acc : Dict) x =>
        match g x with
        | some v => Except.ok (Dict.setdefault acc x v)
        | Option.none => Except.error (err x)) d : Except PyError Dict) =
      Except.error e) :
    ∃ x, e = err x := by
  induction xs generalizing d with
  | nil => cases h
  | cons x rest ih =>
    rw [List.foldlM_cons] at h
    cases hv : g x with
    | none =>
      rw [hv, except_bind_error] at h
      exact ⟨x, (Except.error.injEq _ _ ▸ h).symm⟩
    | some v =>
      rw [hv, except_bind_ok] at h
      exact ih (Dict.setdefault d x v) h

theorem hasKey_foldl_setdefault (xs : List String) (f : String → PyValue) (d : Dict)
    (y : String) :
    Dict.hasKey (xs.foldl (fun acc x => Dict.setdefault acc x (f x)) d) y =
      (Dict.hasKey d y || decide (y ∈ xs)) := by
  rw [Dict.hasKey_eq_isSome, get?_foldl_setdefault]
  by_cases h1 : Dict.hasKey d y = true
  · rw [if_pos h1, ← Dict.hasKey_eq_isSome, h1, Bool.true_or]
  · have h1f : Dict.hasKey d y = false := by simpa using h1
    rw [if_neg h1, h1f, Bool.false_or]
    by_cases h2 : y ∈ xs
    · rw [if_pos h2]
      simp [h2]
    · rw [if_neg h2]
      simp [h2]

theorem Dict.keys_nodup_setItem (d : Dict) (k : String) (v : PyValue)
    (hnd : (Dict.keys d).Nodup) : (Dict.keys (Dict.setItem d k v)).Nodup := by
  rw [Dict.keys_setItem]
  by_cases h : Dict.hasKey d k = true
  · rw [if_pos h]; exact hnd
  · rw [if_neg h]
    refine List.Nodup.append hnd (List.nodup_singleton k) ?_
    intro a ha hb
    have : a = k := by simpa using hb
    subst this
    exact absurd ((Dict.hasKey_iff d a).mpr ha) h

/-- Unfolding of `Settings.replace` on the success path of the validation
loop: the dict handed to the `Settings` constructor, spelled out. -/
theorem replace_eq (P : Dict) (self : Settings) (ms : Option Dict) (kwds : Dict)
    (hfind : kwds.find? (fun kv => kv.2 == PyValue.none) = Option.none)
    (hg : ∀ x ∈ Dict.keys P, (self.getattr x).isSome = true) :
    Settings.replace P self ms kwds =
      Except.ok (Settings.init P (some (
        let d2 := (Dict.keys P).foldl
          (fun acc x => Dict.setdefault acc x ((self.getattr x).getD PyValue.none)) kwds
        let d3 := Dict.setItem d2 "_default" (PyValue.bool false)
        match ms with
        | some m => if m.isEmpty then d3
                    else Dict.setItem d3 "_mod_settings" (PyValue.dict m)
        | Option.none => d3))) := by
  simp only [Settings.replace, hfind]
  rw [foldlM_setdefault_ok (Dict.keys P) (fun x => self.getattr x)
    PyError.attributeError kwds hg]
  rfl

/-- Attribute values of an overlay snapshot, given a characterization of its
instance dict away from `_mod_settings`. -/
theorem overlay_attrs_spec (P ov : Dict)
    (hP : (Dict.keys P).Nodup)
    (hPd : "_default" ∉ Dict.keys P) (hPm : "_mod_settings" ∉ Dict.keys P)
    (hov : (Dict.keys ov).Nodup)
    (hovd : "_default" ∉ Dict.keys ov) (hovm : "_mod_settings" ∉ Dict.keys ov)
    (d4 : Dict)
    (hget4 : ∀ y, y ≠ "_mod_settings" →
      Dict.get? d4 y =
        if y = "_default" then some (PyValue.bool false)
        else if Dict.hasKey ov y then Dict.get? ov y
        else if y ∈ Dict.keys P then
          some (((settings P).getattr y).getD PyValue.none)
        else Option.none) :
    (∀ kv ∈ ov, (⟨d4⟩ : Settings).getattr kv.1 = some kv.2) ∧
    (∀ x ∈ Dict.keys P, x ∉ Dict.keys ov →
      (⟨d4⟩ : Settings).getattr x = (settings P).getattr x) ∧
    (∀ x ∈ Dict.keys P, ((⟨d4⟩ : Settings).getattr x).isSome = true) ∧
    (⟨d4⟩ : Settings).getattr "_default" = some (PyValue.bool false) := by
  have hbase : ∀ x ∈ Dict.keys P,
      (settings P).getattr x = some (((settings P).getattr x).getD PyValue.none) := by
    intro x hx
    obtain ⟨w, hw⟩ := Option.isSome_iff_exists.mp (settings_getattr_mem hP hx).2
    rw [hw]
    rfl
  have hov_get : ∀ kv ∈ ov, (⟨d4⟩ : Settings).getattr kv.1 = some kv.2 := by
    intro kv hkv
    have hk1 : kv.1 ∈ Dict.keys ov := List.mem_map_of_mem (·.1) hkv
    have hne_m : kv.1 ≠ "_mod_settings" := fun he => hovm (he ▸ hk1)
    have hne_d : kv.1 ≠ "_default" := fun he => hovd (he ▸ hk1)
    apply Settings.getattr_of_attrs_some
    rw [hget4 kv.1 hne_m, if_neg hne_d, if_pos ((Dict.hasKey_iff ov kv.1).mpr hk1)]
    exact Dict.get?_of_mem_nodup hov hkv
  refine ⟨hov_get, ?_, ?_, ?_⟩
  · intro x hx hxov
    have hne_m : x ≠ "_mod_settings" := fun he => hPm (he ▸ hx)
    have hne_d : x ≠ "_default" := fun he => hPd (he ▸ hx)
    have hxk : Dict.hasKey ov x = false := by
      by_contra hc
      exact hxov ((Dict.hasKey_iff ov x).mp (by simpa using hc))
    have h1 : Dict.get? d4 x = some (((settings P).getattr x).getD PyValue.none) := by
      rw [hget4 x hne_m, if_neg hne_d, hxk]
      simp [hx]
    rw [Settings.getattr_of_attrs_some h1]
    exact (hbase x hx).symm
  · intro x hx
    have hne_m : x ≠ "_mod_settings" := fun he => hPm (he ▸ hx)
    have hne_d : x ≠ "_default" := fun he => hPd (he ▸ hx)
    by_cases hxov : Dict.hasKey ov x = true
    · obtain ⟨v, hv⟩ := Option.isSome_iff_exists.mp
        (by rw [← Dict.hasKey_eq_isSome]; exact hxov)
      have h1 : Dict.get? d4 x = some v := by
        rw [hget4 x hne_m, if_neg hne_d, if_pos hxov]
        exact hv
      rw [Settings.getattr_of_attrs_some h1]
      rfl
    · have hxk : Dict.hasKey ov x = false := by simpa using hxov
      have h1 : Dict.get? d4 x = some (((settings P).getattr x).getD PyValue.none) := by
        rw [hget4 x hne_m, if_neg hne_d, hxk]
        simp [hx]
      rw [Settings.getattr_of_attrs_some h1]
      rfl
  · apply Settings.getattr_of_attrs_some
    rw [hget4 "_default" (by decide), if_pos rfl]

theorem d3_get_spec (P ov : Dict) (y : String) :
    Dict.get? (Dict.setItem ((Dict.keys P).foldl
        (fun acc x => Dict.setdefault acc x (((settings P).getattr x).getD PyValue.none)) ov)
        "_default" (PyValue.bool false)) y =
      if y = "_default" then some (PyValue.bool false)
      else if Dict.hasKey ov y then Dict.get? ov y
      else if y ∈ Dict.keys P then some (((settings P).getattr y).getD PyValue.none)
      else Option.none := by
  rw [Dict.get?_setItem, get?_foldl_setdefault]

/-- Master specification of a successful `replace` against the base
snapshot, for any option table and any sentinel-free override dict. -/
theorem replace_ok_spec (P ov : Dict) (ms : Option Dict)
    (hP : (Dict.keys P).Nodup)
    (hPd : "_default" ∉ Dict.keys P) (hPm : "_mod_settings" ∉ Dict.keys P)
    (hov : (Dict.keys ov).Nodup)
    (hovd : "_default" ∉ Dict.keys ov) (hovm : "_mod_settings" ∉ Dict.keys ov)
    (hnone : ∀ kv ∈ ov, kv.2 ≠ PyValue.none) :
    ∃ s : Settings,
      Settings.replace P (settings P) ms ov = Except.ok s ∧
      (∀ kv ∈ ov, s.getattr kv.1 = some kv.2) ∧
      (∀ x ∈ Dict.keys P, x ∉ Dict.keys ov →
        s.getattr x = (settings P).getattr x) ∧
      (∀ x ∈ Dict.keys P, (s.getattr x).isSome = true) ∧
      s.getattr "_default" = some (PyValue.bool false) ∧
      s.getattr "_mod_settings" = some (PyValue.dict
        (match ms with
         | some m => if m.isEmpty then [] else m
         | Option.none => [])) := by
  have hfind : ov.find? (fun kv => kv.2 == PyValue.none) = Option.none :=
    List.find?_eq_none.mpr (fun kv hkv => by simpa using hnone kv hkv)
  have hg : ∀ x ∈ Dict.keys P, ((settings P).getattr x).isSome = true :=
    fun x hx => (settings_getattr_mem hP hx).2
  have hkovm : Dict.hasKey ov "_mod_settings" = false := by
    have h := (Dict.hasKey_iff ov "_mod_settings").not.mpr hovm
    simpa using h
  have hnd2 : (Dict.keys ((Dict.keys P).foldl
      (fun acc x => Dict.setdefault acc x (((settings P).getattr x).getD PyValue.none))
      ov)).Nodup :=
    keys_nodup_foldl_setdefault (Dict.keys P) _ ov hov
  have hnd3 := Dict.keys_nodup_setItem _ "_default" (PyValue.bool false) hnd2
  have hne3 := Dict.setItem_ne_nil ((Dict.keys P).foldl
      (fun acc x => Dict.setdefault acc x (((settings P).getattr x).getD PyValue.none)) ov)
      "_default" (PyValue.bool false)
  have hmod3 : Dict.get? (Dict.setItem ((Dict.keys P).foldl
      (fun acc x => Dict.setdefault acc x (((settings P).getattr x).getD PyValue.none)) ov)
      "_default" (PyValue.bool false)) "_mod_settings" = Option.none := by
    rw [d3_get_spec, if_neg (by decide), if_neg (by simp [hkovm]), if_neg hPm]
  rcases ms with _ | m
  · have hre : Settings.replace P (settings P) Option.none ov =
        Except.ok (Settings.init P (some (Dict.setItem ((Dict.keys P).foldl
          (fun acc x => Dict.setdefault acc x (((settings P).getattr x).getD PyValue.none)) ov)
          "_default" (PyValue.bool false)))) :=
      replace_eq P (settings P) Option.none ov hfind hg
    rw [Settings.init_some P _ hne3 hnd3] at hre
    obtain ⟨c1, c2, c3, c4⟩ := overlay_attrs_spec P ov hP hPd hPm hov hovd hovm _
      (fun y _ => d3_get_spec P ov y)
    refine ⟨_, hre, c1, c2, c3, c4, ?_⟩
    exact (Settings.getattr_of_attrs_none hmod3).trans rfl
  · by_cases hem : m.isEmpty = true
    · have hre : Settings.replace P (settings P) (some m) ov =
          Except.ok (Settings.init P (some (Dict.setItem ((Dict.keys P).foldl
            (fun acc x => Dict.setdefault acc x (((settings P).getattr x).getD PyValue.none)) ov)
            "_default" (PyValue.bool false)))) := by
        have h0 := replace_eq P (settings P) (some m) ov hfind hg
        simpa [hem] using h0
      rw [Settings.init_some P _ hne3 hnd3] at hre
      obtain ⟨c1, c2, c3, c4⟩ := overlay_attrs_spec P ov hP hPd hPm hov hovd hovm _
        (fun y _ => d3_get_spec P ov y)
      refine ⟨_, hre, c1, c2, c3, c4, ?_⟩
      refine (Settings.getattr_of_attrs_none hmod3).trans ?_
      show Dict.get? Settings.classAttrs "_mod_settings" =
        some (PyValue.dict (if m.isEmpty = true then [] else m))
      rw [if_pos hem]
      rfl
    · have hre : Settings.replace P (settings P) (some m) ov =
          Except.ok (Settings.init P (some (Dict.setItem (Dict.setItem ((Dict.keys P).foldl
            (fun acc x => Dict.setdefault acc x (((settings P).getattr x).getD PyValue.none)) ov)
            "_default" (PyValue.bool false)) "_mod_settings" (PyValue.dict m)))) := by
        have h0 := replace_eq P (settings P) (some m) ov hfind hg
        simpa [hem] using h0
      have hnd4 := Dict.keys_nodup_setItem _ "_mod_settings" (PyValue.dict m) hnd3
      have hne4 := Dict.setItem_ne_nil (Dict.setItem ((Dict.keys P).foldl
        (fun acc x => Dict.setdefault acc x (((settings P).getattr x).getD PyValue.none)) ov)
        "_default" (PyValue.bool false)) "_mod_settings" (PyValue.dict m)
      rw [Settings.init_some P _ hne4 hnd4] at hre
      have hget4 : ∀ y, y ≠ "_mod_settings" →
          Dict.get? (Dict.setItem (Dict.setItem ((Dict.keys P).foldl
            (fun acc x => Dict.setdefault acc x (((settings P).getattr x).getD PyValue.none)) ov)
            "_default" (PyValue.bool false)) "_mod_settings" (PyValue.dict m)) y =
            if y = "_default" then some (PyValue.bool false)
            else if Dict.hasKey ov y then Dict.get? ov y
            else if y ∈ Dict.keys P then some (((settings P).getattr y).getD PyValue.none)
            else Option.none := by
        intro y hy
        rw [Dict.get?_setItem, if_neg hy]
        exact d3_get_spec P ov y
      obtain ⟨c1, c2, c3, c4⟩ := overlay_attrs_spec P ov hP hPd hPm hov hovd hovm _ hget4
      refine ⟨_, hre, c1, c2, c3, c4, ?_⟩
      apply Settings.getattr_of_attrs_some
      rw [Dict.get?_setItem, if_pos rfl]
      show some (PyValue.dict m) =
        some (PyValue.dict (if m.isEmpty = true then [] else m))
      rw [if_neg hem]

/-! Remaining helper lemmas for the claim theorems. -/

/-- An MD5 hex digest always has 32 characters. -/
theorem md5hex_length (s : String) : (md5hex s).length = 32 := rfl

/-- Unfolding of `Settings.replace` on the failure path: the validation loop
raises on the first `None`-valued keyword argument. -/
theorem replace_find_some (P : Dict) (self : Settings) (ms : Option Dict)
    (kwds : Dict) {kv : String × PyValue}
    (h : kwds.find? (fun kv => kv.2 == PyValue.none) = some kv) :
    Settings.replace P self ms kwds =
      Except.error (PyError.typeError
        ("Invalid \x7b\"" ++ kv.1 ++ "\": " ++ pyStr kv.2 ++ "\x7d")) := by
  simp only [Settings.replace, h]

/-- Any error coming out of `replace` is either the `TypeError` of the
validation loop or an `AttributeError` from a missing attribute. -/
theorem replace_error_shape (P : Dict) (self : Settings) (ms : Option Dict)
    (kwds : Dict) {e : PyError}
    (h : Settings.replace P self ms kwds = Except.error e) :
    (∃ k v, e = PyError.typeError ("Invalid \x7b\"" ++ k ++ "\": " ++ pyStr v ++ "\x7d")) ∨
    (∃ x, e = PyError.attributeError x) := by
  cases hfind : kwds.find? (fun kv => kv.2 == PyValue.none) with
  | some kv =>
    rw [replace_find_some P self ms kwds hfind] at h
    exact Or.inl ⟨kv.1, kv.2, (by simpa using h.symm)⟩
  | none =>
    simp only [Settings.replace, hfind] at h
    cases hfold : ((Dict.keys P).foldlM (fun (d : Dict) x =>
        match self.getattr x with
        | some v => Except.ok (Dict.setdefault d x v)
        | Option.none => Except.error (PyError.attributeError x)) kwds :
          Except PyError Dict) with
    | ok d2 =>
      rw [hfold, except_bind_ok] at h
      cases h
    | error e2 =>
      rw [hfold, except_bind_error] at h
      obtain ⟨x, hx⟩ := foldlM_setdefault_error (Dict.keys P)
        (fun x => self.getattr x) PyError.attributeError kwds hfold
      exact Or.inr ⟨x, by simpa [hx] using h.symm⟩

/-- The validation message of `replace` is never the type message of the
wrapper. -/
theorem invalid_ne_allowed (k v : String) :
    ("Invalid \x7b\"" ++ k ++ "\": " ++ v ++ "\x7d") ≠
      "settings can only be either dict or instance of Settings class" := by
  intro h
  have h2 := congrArg String.data h
  simp only [String.data_append] at h2
  simp at h2

/-- `get_key` is invariant under permutation of the override entries. -/
theorem get_key_perm {m1 m2 : Dict} (h : m1.Perm m2) :
    Settings.get_key (some m1) = Settings.get_key (some m2) := by
  have e1 : Settings.get_key (some m1) = if m1.isEmpty = true then "default"
      else md5hex (String.join ((keyFragments m1).mergeSort (fun a b => a ≤ b))) := rfl
  have e2 : Settings.get_key (some m2) = if m2.isEmpty = true then "default"
      else md5hex (String.join ((keyFragments m2).mergeSort (fun a b => a ≤ b))) := rfl
  have hemp : m1.isEmpty = m2.isEmpty := by
    cases m1 with
    | nil => rw [h.nil_eq]
    | cons a l =>
      cases m2 with
      | nil => exact absurd h.symm.nil_eq (by simp)
      | cons b l2 => rfl
  have hfrag : (keyFragments m1).Perm (keyFragments m2) := h.map _
  have hsort : (keyFragments m1).mergeSort (fun a b => a ≤ b) =
      (keyFragments m2).mergeSort (fun a b => a ≤ b) := by
    refine List.eq_of_perm_of_sorted ?_ (List.sorted_mergeSort' _)
      (List.sorted_mergeSort' _)
    exact ((List.mergeSort_perm _ _).trans hfrag).trans (List.mergeSort_perm _ _).symm
  rw [e1, e2, hemp, hsort]

/-- Values stored in the class attributes are never the sentinel. -/
theorem classAttrs_no_none {x : String} {v : PyValue}
    (h : Dict.get? Settings.classAttrs x = some v) : v ≠ PyValue.none := by
  have hm := Dict.get?_mem h
  simp [Settings.classAttrs] at hm
  rcases hm with ⟨_, hv⟩ | ⟨_, hv⟩ <;> simp [hv]

/-- Attribute lookup reads the instance dict or the class attributes. -/
theorem getattr_some_cases {s : Settings} {x : String} {v : PyValue}
    (h : s.getattr x = some v) :
    Dict.get? s.attrs x = some v ∨ Dict.get? Settings.classAttrs x = some v := by
  unfold Settings.getattr at h
  cases ha : Dict.get? s.attrs x with
  | some w =>
    rw [ha] at h
    left
    simpa using h
  | none =>
    rw [ha] at h
    right
    cases hc : Dict.get? Settings.classAttrs x <;> rw [hc] at h <;> simp at h <;> simp [h]

/-- The base snapshot never yields an attribute value absent from the option
table and the class attributes; if neither holds the sentinel, neither does
any attribute. -/
theorem settings_no_none (P : Dict) (hclean : ∀ kv ∈ P, kv.2 ≠ PyValue.none)
    {x : String} {v : PyValue} (h : (settings P).getattr x = some v) :
    v ≠ PyValue.none := by
  rcases getattr_some_cases h with h1 | h1
  · have hm := Dict.get?_mem h1
    rcases mem_foldl_setItem P [] hm with h2 | h2
    · cases h2
    · exact hclean _ h2
  · exact classAttrs_no_none h1

/-- Membership of the instance dict of a constructed `Settings`. -/
theorem mem_init_attrs {P : Dict} {s? : Option Dict} {kv : String × PyValue}
    (h : kv ∈ (Settings.init P s?).attrs) :
    kv ∈ P ∨ ∃ d, s? = some d ∧ kv ∈ d := by
  cases s? with
  | none =>
    rcases mem_foldl_setItem P [] h with h1 | h1
    · cases h1
    · exact Or.inl h1
  | some d =>
    by_cases he : d.isEmpty = true
    · have h2 : kv ∈ P.foldl (fun acc kv => Dict.setItem acc kv.1 kv.2) ([] : Dict) := by
        have e1 : Settings.init P (some d) = Settings.updateall ⟨[]⟩ P := by
          have e0 : Settings.init P (some d) =
              if d.isEmpty = true then Settings.updateall ⟨[]⟩ P
              else Settings.updateall ⟨[]⟩ d := rfl
          rw [e0, if_pos he]
        rw [e1] at h
        exact h
      rcases mem_foldl_setItem P [] h2 with h1 | h1
      · cases h1
      · exact Or.inl h1
    · have h2 : kv ∈ d.foldl (fun acc kv => Dict.setItem acc kv.1 kv.2) ([] : Dict) := by
        have e1 : Settings.init P (some d) = Settings.updateall ⟨[]⟩ d := by
          have e0 : Settings.init P (some d) =
              if d.isEmpty = true then Settings.updateall ⟨[]⟩ P
              else Settings.updateall ⟨[]⟩ d := rfl
          rw [e0, if_neg he]
        rw [e1] at h
        exact h
      rcases mem_foldl_setItem d [] h2 with h1 | h1
      · cases h1
      · exact Or.inr ⟨d, rfl, h1⟩

/-- Entries produced by the success path of the keyword fold. -/
theorem foldlM_setdefault_ok_mem (xs : List String) (g : String → Option PyValue)
    (err : String → PyError) (d : Dict) {r : Dict}
    (h : (xs.foldlM (fun (acc : Dict) x =>
        match g x with
        | some v => Except.ok (Dict.setdefault acc x v)
        | Option.none => Except.error (err x)) d : Except PyError Dict) = Except.ok r)
    {kv : String × PyValue} (hkv : kv ∈ r) :
    kv ∈ d ∨ ∃ x, g x = some kv.2 := by
  induction xs generalizing d with
  | nil =>
    have hdr : Except.ok d = Except.ok r := h
    injection hdr with hdr
    exact Or.inl (hdr ▸ hkv)
  | cons x rest ih =>
    rw [List.foldlM_cons] at h
    cases hv : g x with
    | none =>
      rw [hv, except_bind_error] at h
      cases h
    | some v =>
      rw [hv, except_bind_ok] at h
      rcases ih (Dict.setdefault d x v) h with h1 | h1
      · rcases Dict.mem_setdefault h1 with h2 | h2
        · exact Or.inl h2
        · exact Or.inr ⟨x, by rw [hv, h2]⟩
      · exact Or.inr h1

/-- A snapshot produced by a successful `replace` against the base snapshot
carries no sentinel attribute values, provided the option table has none. -/
theorem replace_no_none (P : Dict) (hclean : ∀ kv ∈ P, kv.2 ≠ PyValue.none)
    (ms : Option Dict) (ov : Dict) {s : Settings}
    (hok : Settings.replace P (settings P) ms ov = Except.ok s)
    {x : String} {v : PyValue} (h : s.getattr x = some v) :
    v ≠ PyValue.none := by
  cases hfind : ov.find? (fun kv => kv.2 == PyValue.none) with
  | some kv =>
    rw [replace_find_some P _ ms ov hfind] at hok
    cases hok
  | none =>
    have hovclean : ∀ kv ∈ ov, kv.2 ≠ PyValue.none := by
      intro kv hkv
      have := List.find?_eq_none.mp hfind kv hkv
      simpa using this
    simp only [Settings.replace, hfind] at hok
    cases hfold : ((Dict.keys P).foldlM (fun (d : Dict) x =>
        match (settings P).getattr x with
        | some w => Except.ok (Dict.setdefault d x w)
        | Option.none => Except.error (PyError.attributeError x)) ov :
          Except PyError Dict) with
    | error e =>
      rw [hfold, except_bind_error] at hok
      cases hok
    | ok d2 =>
      rw [hfold, except_bind_ok] at hok
      have hd2clean : ∀ kv ∈ d2, kv.2 ≠ PyValue.none := by
        intro kv hkv
        rcases foldlM_setdefault_ok_mem (Dict.keys P)
          (fun y => (settings P).getattr y) PyError.attributeError ov hfold hkv with
          h1 | ⟨y, hy⟩
        · exact hovclean kv h1
        · exact settings_no_none P hclean hy
      have hd3clean : ∀ kv ∈ Dict.setItem d2 "_default" (PyValue.bool false),
          kv.2 ≠ PyValue.none := by
        intro kv hkv
        rcases Dict.mem_setItem hkv with h1 | h1
        · exact hd2clean kv h1
        · rw [h1]; simp
      have hd4clean : ∀ kv ∈ (match ms with
          | some m => if m.isEmpty then Dict.setItem d2 "_default" (PyValue.bool false)
                      else Dict.setItem (Dict.setItem d2 "_default" (PyValue.bool false))
                        "_mod_settings" (PyValue.dict m)
          | Option.none => Dict.setItem d2 "_default" (PyValue.bool false)),
          kv.2 ≠ PyValue.none := by
        rcases ms with _ | m
        · exact hd3clean
        · by_cases hem : m.isEmpty = true
          · simpa [hem] using hd3clean
          · intro kv hkv
            have hkv2 : kv ∈ Dict.setItem (Dict.setItem d2 "_default" (PyValue.bool false))
                "_mod_settings" (PyValue.dict m) := by simpa [hem] using hkv
            rcases Dict.mem_setItem hkv2 with h1 | h1
            · exact hd3clean kv h1
            · rw [h1]; simp
      injection hok with hs
      rcases getattr_some_cases h with h1 | h1
      · have hm := Dict.get?_mem h1
        rw [← hs] at hm
        rcases mem_init_attrs hm with h2 | ⟨d, hd, h2⟩
        · exact hclean _ h2
        · injection hd with hd
          exact hd4clean (x, v) (hd ▸ h2)
      · exact classAttrs_no_none h1

/-! The claim theorems. -/

/-- C1: for every override mapping with no sentinel (`None`) values, overlay
(`Settings.replace`) on the base snapshot succeeds and returns a snapshot in
which every option name of the base table is present, each overridden name
holds the new value, every other name keeps the base value, and
`is_default` (the `_default` attribute) is `False`; the empty mapping is the
special case in which every option keeps its base value. -/
theorem claim_C1_overlay_spec (P ov : Dict) (ms : Option Dict)
    (hP : (Dict.keys P).Nodup)
    (hPd : "_default" ∉ Dict.keys P) (hPm : "_mod_settings" ∉ Dict.keys P)
    (hov : (Dict.keys ov).Nodup)
    (hovd : "_default" ∉ Dict.keys ov) (hovm : "_mod_settings" ∉ Dict.keys ov)
    (hnone : ∀ kv ∈ ov, kv.2 ≠ PyValue.none) :
    ∃ s : Settings,
      Settings.replace P (settings P) ms ov = Except.ok s ∧
      (∀ x ∈ Dict.keys P, (s.getattr x).isSome = true) ∧
      (∀ kv ∈ ov, s.getattr kv.1 = some kv.2) ∧
      (∀ x ∈ Dict.keys P, x ∉ Dict.keys ov → s.getattr x = (settings P).getattr x) ∧
      s.getattr "_default" = some (PyValue.bool false) := by
  obtain ⟨s, h1, h2, h3, h4, h5, h6⟩ :=
    replace_ok_spec P ov ms hP hPd hPm hov hovd hovm hnone
  exact ⟨s, h1, h4, h2, h3, h5⟩

/-- Witness for C1 at a concrete table and override mapping. -/
theorem claim_C1_overlay_spec_witness :
    ((Dict.keys Pex).Nodup ∧ "_default" ∉ Dict.keys Pex ∧
      "_mod_settings" ∉ Dict.keys Pex ∧
      (Dict.keys [("TIMEZONE", PyValue.str "US/Eastern")]).Nodup ∧
      (∀ kv ∈ ([("TIMEZONE", PyValue.str "US/Eastern")] : Dict),
        kv.2 ≠ PyValue.none)) ∧
    (∃ s : Settings,
      Settings.replace Pex (settings Pex) Option.none
        [("TIMEZONE", PyValue.str "US/Eastern")] = Except.ok s ∧
      (∀ x ∈ Dict.keys Pex, (s.getattr x).isSome = true) ∧
      (∀ kv ∈ ([("TIMEZONE", PyValue.str "US/Eastern")] : Dict),
        s.getattr kv.1 = some kv.2) ∧
      (∀ x ∈ Dict.keys Pex, x ∉ Dict.keys [("TIMEZONE", PyValue.str "US/Eastern")] →
        s.getattr x = (settings Pex).getattr x) ∧
      s.getattr "_default" = some (PyValue.bool false)) :=
  ⟨⟨by decide, by decide, by decide, by decide, by decide⟩,
    claim_C1_overlay_spec Pex [("TIMEZONE", PyValue.str "US/Eastern")] Option.none
      (by decide) (by decide) (by decide) (by decide) (by decide) (by decide)
      (by decide)⟩

/-- C2: overlay on the base snapshot raises (the `InvalidOverrideValue`
`TypeError`) exactly when some value of the override mapping is the sentinel
`None`, and the raised error names the offending key (the first such key in
mapping order). -/
theorem claim_C2_replace_error_iff (P ov : Dict) (ms : Option Dict)
    (hP : (Dict.keys P).Nodup) :
    ((∃ e, Settings.replace P (settings P) ms ov = Except.error e) ↔
      ∃ kv ∈ ov, kv.2 = PyValue.none) ∧
    (∀ kv : String × PyValue,
      ov.find? (fun kv => kv.2 == PyValue.none) = some kv →
      Settings.replace P (settings P) ms ov =
        Except.error (PyError.typeError
          ("Invalid \x7b\"" ++ kv.1 ++ "\": " ++ pyStr kv.2 ++ "\x7d"))) := by
  constructor
  · constructor
    · rintro ⟨e, he⟩
      cases hfind : ov.find? (fun kv => kv.2 == PyValue.none) with
      | some kv =>
        refine ⟨kv, List.mem_of_find?_eq_some hfind, ?_⟩
        simpa using List.find?_some hfind
      | none =>
        have hg : ∀ x ∈ Dict.keys P, ((settings P).getattr x).isSome = true :=
          fun x hx => (settings_getattr_mem hP hx).2
        rw [replace_eq P (settings P) ms ov hfind hg] at he
        cases he
    · rintro ⟨kv, hkv, hv⟩
      cases hfind : ov.find? (fun kv => kv.2 == PyValue.none) with
      | some kv2 => exact ⟨_, replace_find_some P (settings P) ms ov hfind⟩
      | none =>
        have := List.find?_eq_none.mp hfind kv hkv
        exact absurd (by simpa using hv) this
  · intro kv hfind
    exact replace_find_some P (settings P) ms ov hfind

/-- Witness for C2: `overlay({"X": None})` raises and names `X`; the same
table accepts a sentinel-free override. -/
theorem claim_C2_replace_error_iff_witness :
    (Dict.keys Pex).Nodup ∧
    ((∃ e, Settings.replace Pex (settings Pex) Option.none
        [("X", PyValue.none)] = Except.error e) ↔
      ∃ kv ∈ ([("X", PyValue.none)] : Dict), kv.2 = PyValue.none) ∧
    (∀ kv : String × PyValue,
      ([("X", PyValue.none)] : Dict).find? (fun kv => kv.2 == PyValue.none) = some kv →
      Settings.replace Pex (settings Pex) Option.none [("X", PyValue.none)] =
        Except.error (PyError.typeError
          ("Invalid \x7b\"" ++ kv.1 ++ "\": " ++ pyStr kv.2 ++ "\x7d"))) :=
  ⟨by decide,
    claim_C2_replace_error_iff Pex [("X", PyValue.none)] Option.none (by decide)⟩

/-- C3: `get_key` returns the literal string `"default"` for an absent or
empty overrides mapping, and otherwise the MD5 hex digest (a fixed-length,
32-character string) of the concatenation, with no separator, of the
lexicographically sorted strings `"<name>-<str(value)>"`. -/
theorem claim_C3_get_key_spec :
    Settings.get_key Option.none = "default" ∧
    Settings.get_key (some []) = "default" ∧
    ∀ d : Dict, d ≠ [] →
      Settings.get_key (some d) =
        md5hex (String.join ((keyFragments d).mergeSort (fun a b => a ≤ b))) ∧
      (Settings.get_key (some d)).length = 32 := by
  refine ⟨rfl, rfl, ?_⟩
  intro d hd
  have e1 : Settings.get_key (some d) = if d.isEmpty = true then "default"
      else md5hex (String.join ((keyFragments d).mergeSort (fun a b => a ≤ b))) := rfl
  rw [e1, if_neg (by simpa [List.isEmpty_iff] using hd)]
  exact ⟨rfl, md5hex_length _⟩

/-- Witness for C3 at a one-entry mapping. -/
theorem claim_C3_get_key_spec_witness :
    (([("PREFER_DATES_FROM", PyValue.str "past")] : Dict) ≠ []) ∧
    (Settings.get_key (some [("PREFER_DATES_FROM", PyValue.str "past")]) =
      md5hex (String.join ((keyFragments [("PREFER_DATES_FROM", PyValue.str "past")]).mergeSort
        (fun a b => a ≤ b))) ∧
    (Settings.get_key (some [("PREFER_DATES_FROM", PyValue.str "past")])).length = 32) :=
  ⟨by decide,
    claim_C3_get_key_spec.2.2 [("PREFER_DATES_FROM", PyValue.str "past")] (by decide)⟩

/-- C4: `get_key` yields equal keys on override mappings holding the same
key/value pairs in any insertion order; being a pure function of the sorted
entries, the key is deterministic across runs and processes. -/
theorem claim_C4_get_key_order_independent (m1 m2 : Dict) (h : m1.Perm m2) :
    Settings.get_key (some m1) = Settings.get_key (some m2) :=
  get_key_perm h

/-- Witness for C4 at two permuted two-entry mappings. -/
theorem claim_C4_get_key_order_independent_witness :
    ([("A", PyValue.int 1), ("B", PyValue.int 2)] : Dict).Perm
      [("B", PyValue.int 2), ("A", PyValue.int 1)] ∧
    Settings.get_key (some [("A", PyValue.int 1), ("B", PyValue.int 2)]) =
      Settings.get_key (some [("B", PyValue.int 2), ("A", PyValue.int 1)]) :=
  ⟨List.Perm.swap _ _ _,
    claim_C4_get_key_order_independent _ _ (List.Perm.swap _ _ _)⟩

/-- C6: an absent or falsy `settings` argument (`None`, the empty mapping,
`0`, `False`) makes the wrapper hand the wrapped callable the process-wide
base snapshot unchanged, whose `is_default` flag is still `True`, with all
positional and keyword arguments forwarded unchanged. -/
theorem claim_C6_falsy_gives_base (P : Dict) (args : List PyValue) (kw : Dict)
    (arg : SettingsArg) (hfalsy : arg.truthy = false)
    (hP : (Dict.keys P).Nodup) (hPd : "_default" ∉ Dict.keys P) :
    apply_settings P args kw arg = Except.ok ⟨args, kw, settings P⟩ ∧
    (settings P).getattr "_default" = some (PyValue.bool true) := by
  constructor
  · have hres : apply_settings_resolve P arg = Except.ok (settings P) := by
      simp [apply_settings_resolve, hfalsy]
    simp [apply_settings, hres, Except.map]
  · rw [settings_getattr_not_mem hP hPd]
    rfl

/-- Witness for C6 at four concrete falsy arguments. -/
theorem claim_C6_falsy_gives_base_witness :
    (SettingsArg.truthy (SettingsArg.py PyValue.none) = false ∧
      SettingsArg.truthy (SettingsArg.py (PyValue.dict [])) = false ∧
      SettingsArg.truthy (SettingsArg.py (PyValue.int 0)) = false ∧
      SettingsArg.truthy SettingsArg.absent = false ∧
      (Dict.keys Pex).Nodup ∧ "_default" ∉ Dict.keys Pex) ∧
    (apply_settings Pex [PyValue.str "tomorrow"] [("languages", PyValue.none)]
        SettingsArg.absent =
      Except.ok ⟨[PyValue.str "tomorrow"], [("languages", PyValue.none)], settings Pex⟩ ∧
    (settings Pex).getattr "_default" = some (PyValue.bool true)) :=
  ⟨⟨by decide, by decide, by decide, by decide, by decide, by decide⟩,
    claim_C6_falsy_gives_base Pex [PyValue.str "tomorrow"]
      [("languages", PyValue.none)] SettingsArg.absent (by decide) (by decide)
      (by decide)⟩

/-- C8: a `settings` argument that is already a `Settings` snapshot passes
through the wrapper unchanged, and a second pass over the result returns the
very same snapshot: the resolution is idempotent on snapshots. -/
theorem claim_C8_snapshot_passthrough (P : Dict) (args : List PyValue) (kw : Dict)
    (s : Settings) :
    apply_settings P args kw (SettingsArg.inst s) = Except.ok ⟨args, kw, s⟩ ∧
    apply_settings_resolve P (SettingsArg.inst s) = Except.ok s ∧
    (apply_settings_resolve P (SettingsArg.inst s) >>= fun s2 =>
      apply_settings_resolve P (SettingsArg.inst s2)) = Except.ok s :=
  ⟨rfl, rfl, rfl⟩

/-- C10: `get_key` is not injective on distinct override mappings: an int
and its string form collide because values go through `str()`, and mappings
whose name/value boundary shifts across a `-` collide because the fragments
are concatenated with no separator. -/
theorem claim_C10_get_key_not_injective :
    Settings.get_key (some [("A", PyValue.int 1)]) =
      Settings.get_key (some [("A", PyValue.str "1")]) ∧
    ([("A", PyValue.int 1)] : Dict) ≠ [("A", PyValue.str "1")] ∧
    Settings.get_key (some [("a", PyValue.str "b-c")]) =
      Settings.get_key (some [("a-b", PyValue.str "c")]) ∧
    ([("a", PyValue.str "b-c")] : Dict) ≠ [("a-b", PyValue.str "c")] :=
  ⟨rfl, by decide, rfl, by decide⟩

/-- C5: a mapping passed as the `settings` argument makes the wrapper hand
the callable a snapshot where each mapped option holds the mapped value and
every other option holds the base default, with the mapping itself
installed as the `_mod_settings` tag, so that the cache key of the
snapshot's override set is the cache key of the mapping. -/
theorem claim_C5_injection_mapping (P m : Dict) (args : List PyValue) (kw : Dict)
    (hP : (Dict.keys P).Nodup)
    (hPd : "_default" ∉ Dict.keys P) (hPm : "_mod_settings" ∉ Dict.keys P)
    (hmnd : (Dict.keys m).Nodup)
    (hmd : "_default" ∉ Dict.keys m) (hmm2 : "_mod_settings" ∉ Dict.keys m)
    (hmms : "mod_settings" ∉ Dict.keys m) (hmself : "self" ∉ Dict.keys m)
    (hnone : ∀ kv ∈ m, kv.2 ≠ PyValue.none) :
    ∃ s : Settings,
      apply_settings P args kw (SettingsArg.py (PyValue.dict m)) =
        Except.ok ⟨args, kw, s⟩ ∧
      (∀ kv ∈ m, s.getattr kv.1 = some kv.2) ∧
      (∀ x ∈ Dict.keys P, x ∉ Dict.keys m → s.getattr x = (settings P).getattr x) ∧
      s.getattr "_mod_settings" = some (PyValue.dict m) ∧
      (∀ ovr : Dict, s.getattr "_mod_settings" = some (PyValue.dict ovr) →
        Settings.get_key (some ovr) = Settings.get_key (some m)) := by
  by_cases hme : m.isEmpty = true
  · have hm0 : m = [] := by simpa [List.isEmpty_iff] using hme
    subst hm0
    have hres : apply_settings_resolve P (SettingsArg.py (PyValue.dict [])) =
        Except.ok (settings P) := by
      simp [apply_settings_resolve, SettingsArg.truthy, pyTruthy]
    refine ⟨settings P, ?_, ?_, ?_, ?_, ?_⟩
    · simp [apply_settings, hres, Except.map]
    · intro kv hkv
      cases hkv
    · intro x hx hxm
      rfl
    · rw [settings_getattr_not_mem hP hPm]
      rfl
    · intro ovr hov
      rw [settings_getattr_not_mem hP hPm] at hov
      have h1 : some (PyValue.dict ([] : Dict)) = some (PyValue.dict ovr) := by
        rw [← hov]
        rfl
      injection h1 with h1
      injection h1 with h1
      rw [← h1]
  · have htr : SettingsArg.truthy (SettingsArg.py (PyValue.dict m)) = true := by
      simp [SettingsArg.truthy, pyTruthy, hme]
    have hk1 : Dict.hasKey m "self" = false := by
      have := (Dict.hasKey_iff m "self").not.mpr hmself
      simpa using this
    have hk2 : Dict.hasKey m "mod_settings" = false := by
      have := (Dict.hasKey_iff m "mod_settings").not.mpr hmms
      simpa using this
    have hres : apply_settings_resolve P (SettingsArg.py (PyValue.dict m)) =
        Settings.replace P (settings P) (some m) m := by
      simp [apply_settings_resolve, htr, hk1, hk2]
    obtain ⟨s, h1, h2, h3, h4, h5, h6⟩ :=
      replace_ok_spec P m (some m) hP hPd hPm hmnd hmd hmm2 hnone
    have hmv : some (PyValue.dict (match (some m : Option Dict) with
        | some m2 => if m2.isEmpty then [] else m2
        | Option.none => [])) = some (PyValue.dict m) := by
      show some (PyValue.dict (if m.isEmpty = true then [] else m)) =
        some (PyValue.dict m)
      rw [if_neg hme]
    refine ⟨s, ?_, h2, h3, h6.trans hmv, ?_⟩
    · simp [apply_settings, hres, h1, Except.map]
    · intro ovr hov
      have h0 := (h6.trans hmv).symm.trans hov
      injection h0 with h0
      injection h0 with h0
      rw [← h0]

/-- Witness for C5 at the spec's example override mapping. -/
theorem claim_C5_injection_mapping_witness :
    ((Dict.keys Pex).Nodup ∧ "_default" ∉ Dict.keys Pex ∧
      "_mod_settings" ∉ Dict.keys Pex ∧
      (Dict.keys [("PREFER_DATES_FROM", PyValue.str "past")]).Nodup ∧
      (∀ kv ∈ ([("PREFER_DATES_FROM", PyValue.str "past")] : Dict),
        kv.2 ≠ PyValue.none)) ∧
    (∃ s : Settings,
      apply_settings Pex [] [] (SettingsArg.py
        (PyValue.dict [("PREFER_DATES_FROM", PyValue.str "past")])) =
        Except.ok ⟨[], [], s⟩ ∧
      (∀ kv ∈ ([("PREFER_DATES_FROM", PyValue.str "past")] : Dict),
        s.getattr kv.1 = some kv.2) ∧
      (∀ x ∈ Dict.keys Pex,
        x ∉ Dict.keys [("PREFER_DATES_FROM", PyValue.str "past")] →
        s.getattr x = (settings Pex).getattr x) ∧
      s.getattr "_mod_settings" =
        some (PyValue.dict [("PREFER_DATES_FROM", PyValue.str "past")]) ∧
      (∀ ovr : Dict, s.getattr "_mod_settings" = some (PyValue.dict ovr) →
        Settings.get_key (some ovr) =
          Settings.get_key (some [("PREFER_DATES_FROM", PyValue.str "past")]))) :=
  ⟨⟨by decide, by decide, by decide, by decide, by decide⟩,
    claim_C5_injection_mapping Pex [("PREFER_DATES_FROM", PyValue.str "past")] [] []
      (by decide) (by decide) (by decide) (by decide) (by decide) (by decide)
      (by decide) (by decide) (by decide)⟩

/-- C7 counterexample: the error raised for `settings=42` is the fixed
string naming the allowed types; the identical error value is raised for a
string argument, and the received type name (`int`) occurs nowhere in the
message, so the error does not identify the received type. -/
theorem claim_C7_counterexample :
    apply_settings_resolve [] (SettingsArg.py (PyValue.int 42)) =
      Except.error (PyError.typeError
        "settings can only be either dict or instance of Settings class") ∧
    apply_settings_resolve [] (SettingsArg.py (PyValue.str "not a settings value")) =
      apply_settings_resolve [] (SettingsArg.py (PyValue.int 42)) ∧
    ¬ List.IsInfix "int".data
      "settings can only be either dict or instance of Settings class".data :=
  ⟨rfl, rfl, by decide⟩

/-- C7 amended: the wrapper raises the `InvalidSettingsType` `TypeError`
exactly when the `settings` argument is truthy and neither a mapping nor a
`Settings` snapshot; the error is the fixed message naming the allowed
types (not the received type). -/
theorem claim_C7_amended_invalid_settings_type (P : Dict) (arg : SettingsArg) :
    apply_settings_resolve P arg =
      Except.error (PyError.typeError
        "settings can only be either dict or instance of Settings class") ↔
    (arg.truthy = true ∧ (∀ d : Dict, arg ≠ SettingsArg.py (PyValue.dict d)) ∧
      (∀ s : Settings, arg ≠ SettingsArg.inst s)) := by
  cases arg with
  | absent =>
    exact ⟨(fun h => by cases h), (fun hc => by cases hc.1)⟩
  | inst s =>
    exact ⟨(fun h => by cases h), (fun hc => absurd rfl (hc.2.2 s))⟩
  | py v =>
    cases v with
    | none =>
      exact ⟨(fun h => by cases h), (fun hc => by cases hc.1)⟩
    | bool b =>
      cases b with
      | false =>
        exact ⟨(fun h => by cases h), (fun hc => by cases hc.1)⟩
      | true =>
        exact ⟨(fun _ => ⟨rfl, (fun d => by simp), (fun s => by simp)⟩), (fun _ => rfl)⟩
    | int n =>
      by_cases hn : n = 0
      · subst hn
        exact ⟨(fun h => by cases h), (fun hc => by cases hc.1)⟩
      · have ht : SettingsArg.truthy (SettingsArg.py (PyValue.int n)) = true := by
          simp [SettingsArg.truthy, pyTruthy, hn]
        constructor
        · intro h
          exact ⟨ht, fun d => by simp, fun s => by simp⟩
        · intro h
          simp [apply_settings_resolve, ht]
    | str s0 =>
      by_cases hs : s0.isEmpty = true
      · have hres : apply_settings_resolve P (SettingsArg.py (PyValue.str s0)) =
            Except.ok (settings P) := by
          simp [apply_settings_resolve, SettingsArg.truthy, pyTruthy, hs]
        constructor
        · intro h
          rw [hres] at h
          cases h
        · rintro ⟨h1, -, -⟩
          exact absurd h1 (by simp [SettingsArg.truthy, pyTruthy, hs])
      · have ht : SettingsArg.truthy (SettingsArg.py (PyValue.str s0)) = true := by
          simp [SettingsArg.truthy, pyTruthy, hs]
        constructor
        · intro h
          exact ⟨ht, fun d => by simp, fun s => by simp⟩
        · intro h
          simp [apply_settings_resolve, ht]
    | dict d =>
      by_cases hd : d.isEmpty = true
      · have hres : apply_settings_resolve P (SettingsArg.py (PyValue.dict d)) =
            Except.ok (settings P) := by
          simp [apply_settings_resolve, SettingsArg.truthy, pyTruthy, hd]
        constructor
        · intro h
          rw [hres] at h
          cases h
        · rintro ⟨h1, -, -⟩
          exact absurd h1 (by simp [SettingsArg.truthy, pyTruthy, hd])
      · have ht : SettingsArg.truthy (SettingsArg.py (PyValue.dict d)) = true := by
          simp [SettingsArg.truthy, pyTruthy, hd]
        constructor
        · intro h
          exfalso
          by_cases hcol : (Dict.hasKey d "self" || Dict.hasKey d "mod_settings") = true
          · have hres : apply_settings_resolve P (SettingsArg.py (PyValue.dict d)) =
                Except.error (PyError.typeError
                  "replace() got multiple values for argument") := by
              simp [apply_settings_resolve, ht, hcol]
            rw [hres] at h
            injection h with h
            injection h with h
            exact absurd h (by decide)
          · have hres : apply_settings_resolve P (SettingsArg.py (PyValue.dict d)) =
                Settings.replace P (settings P) (some d) d := by
              simp [apply_settings_resolve, ht, hcol]
            rw [hres] at h
            cases hrep : Settings.replace P (settings P) (some d) d with
            | error e =>
              rw [hrep] at h
              injection h with h
              rcases replace_error_shape P (settings P) (some d) d hrep with
                ⟨k, v, hk⟩ | ⟨x, hx⟩
              · rw [hk] at h
                injection h with h
                exact invalid_ne_allowed k (pyStr v) h
              · rw [hx] at h
                cases h
            | ok s =>
              rw [hrep] at h
              cases h
        · rintro ⟨-, h2, -⟩
          exact absurd rfl (h2 d)

/-- C9 counterexample: if the external option table itself maps an option
to the sentinel, the base snapshot holds the sentinel, and overlaying the
empty mapping propagates it into the new snapshot: the invariant does not
hold regardless of the contents of the external option source. -/
theorem claim_C9_counterexample :
    (settings [("X", PyValue.none)]).getattr "X" = some PyValue.none ∧
    Settings.replace [("X", PyValue.none)] (settings [("X", PyValue.none)])
        Option.none [] =
      Except.ok ⟨[("X", PyValue.none), ("_default", PyValue.bool false)]⟩ ∧
    (Settings.mk [("X", PyValue.none), ("_default", PyValue.bool false)]).getattr "X" =
      some PyValue.none :=
  ⟨rfl, rfl, rfl⟩

/-- C9 amended: provided the external option table holds no sentinel
values, no snapshot reachable through the public surface — the base
snapshot, any successful overlay of it, any snapshot resolved from a
mapping by the injection wrapper — holds a sentinel attribute value;
sentinel-valued overrides are rejected at overlay time. -/
theorem claim_C9_amended_no_sentinel (P : Dict)
    (hclean : ∀ kv ∈ P, kv.2 ≠ PyValue.none) :
    (∀ x v, (settings P).getattr x = some v → v ≠ PyValue.none) ∧
    (∀ ms ov s, Settings.replace P (settings P) ms ov = Except.ok s →
      ∀ x v, s.getattr x = some v → v ≠ PyValue.none) ∧
    (∀ d s, apply_settings_resolve P (SettingsArg.py (PyValue.dict d)) = Except.ok s →
      ∀ x v, s.getattr x = some v → v ≠ PyValue.none) := by
  refine ⟨fun x v h => settings_no_none P hclean h,
    fun ms ov s hok x v h => replace_no_none P hclean ms ov hok h, ?_⟩
  intro d s hok x v h
  by_cases hde : d.isEmpty = true
  · have hres : apply_settings_resolve P (SettingsArg.py (PyValue.dict d)) =
        Except.ok (settings P) := by
      simp [apply_settings_resolve, SettingsArg.truthy, pyTruthy, hde]
    rw [hres] at hok
    injection hok with hok
    rw [← hok] at h
    exact settings_no_none P hclean h
  · have ht : SettingsArg.truthy (SettingsArg.py (PyValue.dict d)) = true := by
      simp [SettingsArg.truthy, pyTruthy, hde]
    by_cases hcol : (Dict.hasKey d "self" || Dict.hasKey d "mod_settings") = true
    · have hres : apply_settings_resolve P (SettingsArg.py (PyValue.dict d)) =
          Except.error (PyError.typeError
            "replace() got multiple values for argument") := by
        simp [apply_settings_resolve, ht, hcol]
      rw [hres] at hok
      cases hok
    · have hres : apply_settings_resolve P (SettingsArg.py (PyValue.dict d)) =
          Settings.replace P (settings P) (some d) d := by
        simp [apply_settings_resolve, ht, hcol]
      rw [hres] at hok
      exact replace_no_none P hclean (some d) d hok h

/-- Witness for the amended C9 at a concrete sentinel-free table. -/
theorem claim_C9_amended_no_sentinel_witness :
    (∀ kv ∈ Pex, kv.2 ≠ PyValue.none) ∧
    ((∀ x v, (settings Pex).getattr x = some v → v ≠ PyValue.none) ∧
     (∀ ms ov s, Settings.replace Pex (settings Pex) ms ov = Except.ok s →
        ∀ x v, s.getattr x = some v → v ≠ PyValue.none) ∧
     (∀ d s, apply_settings_resolve Pex (SettingsArg.py (PyValue.dict d)) =
          Except.ok s →
        ∀ x v, s.getattr x = some v → v ≠ PyValue.none)) :=
  ⟨by decide, claim_C9_amended_no_sentinel Pex (by decide)⟩
